import Mathlib

set_option maxHeartbeats 1000000

namespace Assistant

/-!
Shallow embedding of the contact-book program (`main.py`): calendar dates as
used by Python `datetime.date`, the validated field types `Name`, `Phone`,
`Birthday`, the `Record` and `AddressBook` operations, and the
`get_upcoming_birthdays` query. Strings are modelled over their character
lists, restricted to the ASCII repertoire the program manipulates.
-/

/-- Calendar date (proleptic Gregorian), as used by Python `datetime.date`. -/
structure Date where
  year : Nat
  month : Nat
  day : Nat
deriving DecidableEq, Repr

/-- Gregorian leap-year test, as in Python `datetime`. -/
def isLeap (y : Nat) : Bool :=
  (y % 4 == 0 && y % 100 != 0) || y % 400 == 0

/-- Number of days in month `m` of year `y`. -/
def daysInMonth (y m : Nat) : Nat :=
  if m == 2 then (if isLeap y then 29 else 28)
  else if m == 4 || m == 6 || m == 9 || m == 11 then 30
  else 31

/-- Total days of the months strictly before month `m` of year `y`. -/
def daysBeforeMonth (y m : Nat) : Nat :=
  ((List.range (m - 1)).map (fun i => daysInMonth y (i + 1))).sum

/-- Number of leap years in `1..n`. -/
def leapCount (n : Nat) : Nat :=
  n / 4 + n / 400 - n / 100

/-- Day number of a date (`01.01.0001 ↦ 1`), mirroring Python
`date.toordinal`; differences of dates (`timedelta.days`) are differences of
this number. -/
def rataDie (d : Date) : Nat :=
  365 * (d.year - 1) + leapCount (d.year - 1) + daysBeforeMonth d.year d.month + d.day

/-- Python `date.weekday()`: Monday = 0, ..., Saturday = 5, Sunday = 6.
Day 1 (01.01.0001) is a Monday in the proleptic Gregorian calendar. -/
def pythonWeekday (d : Date) : Nat :=
  (rataDie d + 6) % 7

/-- Python `date` comparison: lexicographic on (year, month, day). -/
def dateLt (a b : Date) : Bool :=
  a.year < b.year ||
    (a.year == b.year && (a.month < b.month || (a.month == b.month && a.day < b.day)))

/-- Successor day in the calendar. -/
def nextDay (d : Date) : Date :=
  if d.day < daysInMonth d.year d.month then ⟨d.year, d.month, d.day + 1⟩
  else if d.month < 12 then ⟨d.year, d.month + 1, 1⟩
  else ⟨d.year + 1, 1, 1⟩

/-- `d + timedelta(days := n)` for a valid date `d`. -/
def addDays (d : Date) : Nat → Date
  | 0 => d
  | n + 1 => nextDay (addDays d n)

/-- Python `date.replace(year := y)`: keeps month and day, fails
(`ValueError`) when the resulting combination is not a valid date, e.g.
February 29 in a non-leap year, or a year outside `1..9999`. -/
def replaceYear (d : Date) (y : Nat) : Option Date :=
  if 1 ≤ y ∧ y ≤ 9999 ∧ d.day ≤ daysInMonth y d.month then some ⟨y, d.month, d.day⟩
  else none

/-- Decimal digits of `n`, zero-padded on the left to width `w`. -/
def padDigits (w n : Nat) : List Char :=
  let ds := Nat.toDigits 10 n
  List.replicate (w - ds.length) '0' ++ ds

/-- Python `date.strftime("%d.%m.%Y")`. -/
def formatDMY (d : Date) : String :=
  String.mk (padDigits 2 d.day ++ ('.' :: padDigits 2 d.month) ++ ('.' :: padDigits 4 d.year))

/-- Split a character list on a separator character (as `str.split` on a
single-character separator does for the fields of `"%d.%m.%Y"`). -/
def splitOnChar (sep : Char) : List Char → List (List Char)
  | [] => [[]]
  | c :: rest =>
    match splitOnChar sep rest with
    | [] => if c == sep then [[], [c]] else [[c]]
    | g :: gs => if c == sep then [] :: g :: gs else (c :: g) :: gs

/-- Numeric value of a digit character. -/
def digitVal (c : Char) : Nat := c.toNat - 48

/-- The `%d` field of `strptime`: `3[01]`, `[12][0-9]`, `0[1-9]`, `[1-9]`,
or a space followed by `[1-9]`. -/
def parseDayField : List Char → Option Nat
  | [c] => if '1' ≤ c ∧ c ≤ '9' then some (digitVal c) else none
  | [' ', c] => if '1' ≤ c ∧ c ≤ '9' then some (digitVal c) else none
  | [c1, c2] =>
    if c1.isDigit ∧ c2.isDigit then
      let v := 10 * digitVal c1 + digitVal c2
      if 1 ≤ v ∧ v ≤ 31 then some v else none
    else none
  | _ => none

/-- The `%m` field of `strptime`: `1[0-2]`, `0[1-9]`, or `[1-9]`. -/
def parseMonthField : List Char → Option Nat
  | [c] => if '1' ≤ c ∧ c ≤ '9' then some (digitVal c) else none
  | [c1, c2] =>
    if c1.isDigit ∧ c2.isDigit then
      let v := 10 * digitVal c1 + digitVal c2
      if 1 ≤ v ∧ v ≤ 12 then some v else none
    else none
  | _ => none

/-- The `%Y` field of `strptime`: exactly four digits. -/
def parseYearField : List Char → Option Nat
  | [c1, c2, c3, c4] =>
    if c1.isDigit ∧ c2.isDigit ∧ c3.isDigit ∧ c4.isDigit then
      some (1000 * digitVal c1 + 100 * digitVal c2 + 10 * digitVal c3 + digitVal c4)
    else none
  | _ => none

/-- Python `datetime.strptime(s, "%d.%m.%Y").date()`: the three dot-separated
fields parse, and the driver then builds `date(year, month, day)`, which
requires `1 ≤ year` and `day ≤ daysInMonth year month`. `none` models the
`ValueError` raised on failure. -/
def parseDMY (s : String) : Option Date :=
  match splitOnChar '.' s.data with
  | [ds, ms, ys] =>
    match parseDayField ds, parseMonthField ms, parseYearField ys with
    | some d, some m, some y =>
      if 1 ≤ y ∧ d ≤ daysInMonth y m then some ⟨y, m, d⟩ else none
    | _, _, _ => none
  | _ => none

/-- The semantic error kinds behind the program's `ValueError`s (§7 of the
design): one constructor per distinct raise condition. -/
inductive VError where
  | invalidName
  | invalidPhone
  | invalidDate
  | duplicatePhone
  | phoneNotFound
  | recordNotFound
  | dateConstructionError
deriving DecidableEq, Repr

/-- `Name` field: stores the stripped string; construction fails when the
input is empty or whitespace-only. -/
structure Name where
  value : String
deriving DecidableEq, Repr

/-- Characters stripped by Python `str.strip()` with no argument. -/
def stripChars (l : List Char) : List Char :=
  (l.dropWhile Char.isWhitespace).reverse.dropWhile Char.isWhitespace |>.reverse

/-- `Name(value)`: `if not value or not value.strip(): raise ValueError`;
otherwise stores `value.strip()`. -/
def Name.make (s : String) : Except VError Name :=
  if stripChars s.data = [] then .error .invalidName
  else .ok ⟨String.mk (stripChars s.data)⟩

/-- `Phone` field: stores the string exactly as given. -/
structure Phone where
  value : String
deriving DecidableEq, Repr

/-- `Phone._validate_phone`: `phone.isdigit() and len(phone) == 10`.
`str.isdigit` demands a non-empty all-digit string; over the ASCII
repertoire that is exactly the characters `0`-`9`. -/
def validate_phone (s : String) : Bool :=
  (!s.data.isEmpty && s.data.all Char.isDigit) && s.length == 10

/-- `Phone(value)`: validate, store unchanged on success. -/
def Phone.make (s : String) : Except VError Phone :=
  if validate_phone s then .ok ⟨s⟩ else .error .invalidPhone

/-- `Birthday` field: stores the original string. -/
structure Birthday where
  value : String
deriving DecidableEq, Repr

/-- `Birthday(value)`: `datetime.strptime(value, "%d.%m.%Y")` must succeed;
the original string is stored. -/
def Birthday.make (s : String) : Except VError Birthday :=
  if (parseDMY s).isSome then .ok ⟨s⟩ else .error .invalidDate

/-- `Record`: a name, an ordered phone list, an optional birthday. -/
structure Record where
  name : Name
  phones : List Phone
  birthday : Option Birthday
deriving DecidableEq, Repr

/-- `Record.find_phone`: first phone object whose value equals `phone`, else
`None`. -/
def Record.find_phone (r : Record) (phone : String) : Option Phone :=
  r.phones.find? (fun po => po.value == phone)

/-- Mutating `Record` methods return the record state after the call together
with `some` error when the call raised (Python raises before any mutation, so
the state returned with an error is the original one). `add_phone`: raise
`DuplicatePhone` if `find_phone` hits, else construct a `Phone` (raising
`InvalidPhone` on bad format), else append it. -/
def Record.add_phone (r : Record) (phone : String) : Record × Option VError :=
  if (r.find_phone phone).isSome then (r, some .duplicatePhone)
  else
    match Phone.make phone with
    | .error e => (r, some e)
    | .ok po => ({ r with phones := r.phones ++ [po] }, none)

/-- Python `list.remove(x)`: drop the first element equal to `x` (here: the
object `find_phone` returned, i.e. the first phone with the given value). -/
def erasePhoneValue : List Phone → String → List Phone
  | [], _ => []
  | po :: rest, p => if po.value == p then rest else po :: erasePhoneValue rest p

/-- `Record.remove_phone`: raise `PhoneNotFound` when absent, else remove the
found object from the list. -/
def Record.remove_phone (r : Record) (phone : String) : Record × Option VError :=
  if (r.find_phone phone).isSome then
    ({ r with phones := erasePhoneValue r.phones phone }, none)
  else (r, some .phoneNotFound)

/-- `Record.edit_phone`: raise `PhoneNotFound` when `old_phone` is absent;
else construct a `Phone` from `new_phone` (raising `InvalidPhone` on bad
format) and overwrite the list cell at `phones.index(found_object)`, the
first index holding `old_phone`. -/
def Record.edit_phone (r : Record) (old_phone new_phone : String) : Record × Option VError :=
  if (r.find_phone old_phone).isSome then
    match Phone.make new_phone with
    | .error e => (r, some e)
    | .ok po =>
      ({ r with phones := r.phones.set (r.phones.findIdx (fun q => q.value == old_phone)) po },
        none)
  else (r, some .phoneNotFound)

/-- `Record.add_birthday`: construct a `Birthday` (raising `InvalidDate` on a
string that does not parse), then overwrite the field. -/
def Record.add_birthday (r : Record) (birthday : String) : Record × Option VError :=
  match Birthday.make birthday with
  | .error e => (r, some e)
  | .ok b => ({ r with birthday := some b }, none)

/-- `AddressBook`: a `UserDict`; `data` is its mapping, modelled as the
association list of its entries in insertion order (Python dicts preserve
insertion order; assignment to an existing key keeps its position). -/
structure AddressBook where
  data : List (String × Record)
deriving DecidableEq, Repr

/-- `dict[k] = v`: overwrite in place when the key is present, else append. -/
def dictInsert (l : List (String × Record)) (k : String) (v : Record) :
    List (String × Record) :=
  if l.any (fun p => p.1 == k) then l.map (fun p => if p.1 == k then (p.1, v) else p)
  else l ++ [(k, v)]

/-- `AddressBook.add_record`: `self.data[record.name.value] = record`. -/
def AddressBook.add_record (book : AddressBook) (record : Record) : AddressBook :=
  ⟨dictInsert book.data record.name.value record⟩

/-- `AddressBook.find`: `self.data.get(name)`. -/
def AddressBook.find (book : AddressBook) (name : String) : Option Record :=
  match book.data.find? (fun p => p.1 == name) with
  | some p => some p.2
  | none => none

/-- `AddressBook.delete`: `del self.data[name]` when present, else raise
`RecordNotFound`. -/
def AddressBook.delete (book : AddressBook) (name : String) : AddressBook × Option VError :=
  if book.data.any (fun p => p.1 == name) then
    (⟨book.data.eraseP (fun p => p.1 == name)⟩, none)
  else (book, some .recordNotFound)

instance {ε α : Type} [DecidableEq ε] [DecidableEq α] : DecidableEq (Except ε α) := fun x y =>
  match x, y with
  | .ok a, .ok b =>
    if h : a = b then isTrue (h ▸ rfl) else isFalse (fun hc => h (Except.ok.inj hc))
  | .error e, .error f =>
    if h : e = f then isTrue (h ▸ rfl) else isFalse (fun hc => h (Except.error.inj hc))
  | .ok _, .error _ => isFalse (fun hc => Except.noConfusion hc)
  | .error _, .ok _ => isFalse (fun hc => Except.noConfusion hc)

/-- One emitted element of `get_upcoming_birthdays`: the dict
`{"name": ..., "birthday": ...}`. -/
structure Entry where
  name : String
  birthday : String
deriving DecidableEq, Repr

/-- The loop body of `get_upcoming_birthdays` for one record: `.ok none` when
the record contributes nothing, `.ok (some entry)` when it is appended,
`.error` when the iteration raises (strptime failure or an invalid
`date.replace`). -/
def processRecord (today : Date) (r : Record) : Except VError (Option Entry) :=
  match r.birthday with
  | none => .ok none
  | some b =>
    match parseDMY b.value with
    | none => .error .invalidDate
    | some birthday_date =>
      match replaceYear birthday_date today.year with
      | none => .error .dateConstructionError
      | some bty =>
        match (if dateLt bty today then replaceYear birthday_date (today.year + 1)
               else some bty) with
        | none => .error .dateConstructionError
        | some birthday_this_year =>
          let days_until : Int := (rataDie birthday_this_year : Int) - (rataDie today : Int)
          if 0 ≤ days_until ∧ days_until ≤ 7 then
            let congratulation_date :=
              if pythonWeekday birthday_this_year == 5 then addDays birthday_this_year 2
              else if pythonWeekday birthday_this_year == 6 then addDays birthday_this_year 1
              else birthday_this_year
            .ok (some ⟨r.name.value, formatDMY congratulation_date⟩)
          else .ok none

/-- The `for record in self.data.values()` loop: process records in insertion
order, abort on the first raise, collect the appended entries. -/
def upcomingAux (today : Date) : List Record → Except VError (List Entry)
  | [] => .ok []
  | r :: rs =>
    match processRecord today r with
    | .error e => .error e
    | .ok e? =>
      match upcomingAux today rs with
      | .error e => .error e
      | .ok rest =>
        .ok (match e? with
             | none => rest
             | some e => e :: rest)

/-- `AddressBook.get_upcoming_birthdays`, with `today` passed explicitly in
place of `datetime.today().date()`. -/
def AddressBook.get_upcoming_birthdays (book : AddressBook) (today : Date) :
    Except VError (List Entry) :=
  upcomingAux today (book.data.map Prod.snd)

/-- `get_upcoming_birthdays` with the mapping state threaded explicitly
through the loop: each iteration receives the mapping and hands it on; no
statement of the method assigns to `self.data` or to any record field, so
each iteration hands it on unchanged. The first component is the mapping
state when the method returns or raises. -/
def upcomingAuxSt (today : Date) (st : List (String × Record)) :
    List Record → List (String × Record) × Except VError (List Entry)
  | [] => (st, .ok [])
  | r :: rs =>
    match processRecord today r with
    | .error e => (st, .error e)
    | .ok e? =>
      match upcomingAuxSt today st rs with
      | (st', .error e) => (st', .error e)
      | (st', .ok rest) =>
        (st', .ok (match e? with
                   | none => rest
                   | some e => e :: rest))

/-- State-passing form of `AddressBook.get_upcoming_birthdays`. -/
def AddressBook.get_upcoming_birthdays_st (book : AddressBook) (today : Date) :
    AddressBook × Except VError (List Entry) :=
  match upcomingAuxSt today book.data (book.data.map Prod.snd) with
  | (st, res) => (⟨st⟩, res)

example : pythonWeekday ⟨2024, 3, 10⟩ = 6 := by decide
example : pythonWeekday ⟨2024, 3, 16⟩ = 5 := by decide
example : pythonWeekday ⟨2024, 3, 12⟩ = 1 := by decide
example : parseDMY "16.03.1990" = some ⟨1990, 3, 16⟩ := by decide
example : parseDMY "31.02.2024" = none := by decide
example : parseDMY "5.3.2024" = some ⟨2024, 3, 5⟩ := by decide
example : parseDMY "12.03.2020.x" = none := by decide
example : formatDMY ⟨2024, 3, 5⟩ = "05.03.2024" := by decide
example : rataDie ⟨2024, 3, 16⟩ - rataDie ⟨2024, 3, 10⟩ = 6 := by decide
example : addDays ⟨2024, 3, 16⟩ 2 = ⟨2024, 3, 18⟩ := by decide
example : replaceYear ⟨2020, 2, 29⟩ 2023 = none := by decide

example :
    AddressBook.get_upcoming_birthdays
      ⟨[("Alice", ⟨⟨"Alice"⟩, [], some ⟨"12.03.2020"⟩⟩),
        ("Bob", ⟨⟨"Bob"⟩, [], some ⟨"16.03.1990"⟩⟩),
        ("Carol", ⟨⟨"Carol"⟩, [], some ⟨"09.03.1995"⟩⟩)]⟩
      ⟨2024, 3, 10⟩ =
    .ok [⟨"Alice", "12.03.2024"⟩, ⟨"Bob", "18.03.2024"⟩] := by decide

example :
    AddressBook.get_upcoming_birthdays
      ⟨[("Dan", ⟨⟨"Dan"⟩, [], some ⟨"29.02.2020"⟩⟩)]⟩ ⟨2023, 1, 1⟩ =
    .error .dateConstructionError := by decide

example : validate_phone "0123456789" = true := by decide
example : validate_phone "012345678" = false := by decide
example : validate_phone "01234567a9" = false := by decide

/-! ### Phone construction (C3) -/

/-- The shape the claim describes: exactly 10 decimal digit characters. -/
def tenDigitString (s : String) : Prop :=
  s.length = 10 ∧ ∀ c ∈ s.data, '0' ≤ c ∧ c ≤ '9'

instance (s : String) : Decidable (tenDigitString s) :=
  inferInstanceAs (Decidable (_ ∧ _))

theorem isDigit_iff (c : Char) : c.isDigit = true ↔ ('0' ≤ c ∧ c ≤ '9') := by
  simp [Char.isDigit, Char.le_def]

theorem validate_phone_iff (s : String) : validate_phone s = true ↔ tenDigitString s := by
  obtain ⟨l⟩ := s
  unfold validate_phone tenDigitString
  simp only [Bool.and_eq_true, List.all_eq_true, beq_iff_eq, String.length]
  constructor
  · rintro ⟨⟨-, hall⟩, hlen⟩
    exact ⟨hlen, fun c hc => (isDigit_iff c).mp (hall c hc)⟩
  · rintro ⟨hlen, hall⟩
    refine ⟨⟨?_, fun c hc => (isDigit_iff c).mpr (hall c hc)⟩, hlen⟩
    cases l with
    | nil => simp at hlen
    | cons a t => simp [List.isEmpty]

/-- C3: constructing a `Phone` from `s` succeeds with stored value exactly
`s` iff `s` consists of exactly 10 decimal digits `0`-`9`; every other
string (wrong length or a non-digit character) fails with `InvalidPhone`. -/
theorem phone_construction_characterization (s : String) :
    (Phone.make s = .ok ⟨s⟩ ↔ tenDigitString s) ∧
    (¬ tenDigitString s → Phone.make s = .error .invalidPhone) := by
  unfold Phone.make
  by_cases h : validate_phone s = true
  · rw [if_pos h]
    exact ⟨⟨fun _ => (validate_phone_iff s).mp h, fun _ => rfl⟩,
      fun hnot => absurd ((validate_phone_iff s).mp h) hnot⟩
  · rw [if_neg h]
    exact ⟨⟨fun hc => Except.noConfusion hc,
      fun ht => absurd ((validate_phone_iff s).mpr ht) h⟩, fun _ => rfl⟩

theorem phone_construction_characterization_witness :
    Phone.make "0123456789" = .ok ⟨"0123456789"⟩ ∧
    Phone.make "01234a6789" = .error .invalidPhone :=
  ⟨(phone_construction_characterization "0123456789").1.mpr (by decide),
    (phone_construction_characterization "01234a6789").2 (by decide)⟩

/-! ### add_phone on a duplicate (C5) -/

/-- C5: `add_phone` with a value already on the record fails with
`DuplicatePhone`, and the phone list after the failed call is exactly the
one from before it. -/
theorem add_phone_duplicate_fails (r : Record) (v : String)
    (h : (r.find_phone v).isSome = true) :
    r.add_phone v = (r, some .duplicatePhone) ∧
    (r.add_phone v).1.phones = r.phones := by
  unfold Record.add_phone
  rw [if_pos h]
  exact ⟨rfl, rfl⟩

def c5rec : Record := ⟨⟨"Ann"⟩, [⟨"0123456789"⟩, ⟨"1112223334"⟩], none⟩

theorem add_phone_duplicate_fails_witness :
    c5rec.add_phone "0123456789" = (c5rec, some .duplicatePhone) ∧
    (c5rec.add_phone "0123456789").1.phones = c5rec.phones :=
  add_phone_duplicate_fails c5rec "0123456789" (by decide)

/-! ### add_birthday on an unparseable date (C9) -/

/-- C9: `add_birthday` with a string that does not parse as a DD.MM.YYYY
calendar date fails with `InvalidDate`, and the record's stored birthday
after the failed call is the one from before it. -/
theorem add_birthday_invalid_keeps_birthday (r : Record) (s : String)
    (h : parseDMY s = none) :
    r.add_birthday s = (r, some .invalidDate) ∧
    (r.add_birthday s).1.birthday = r.birthday := by
  unfold Record.add_birthday Birthday.make
  rw [h]
  exact ⟨rfl, rfl⟩

def c9rec : Record := ⟨⟨"Ben"⟩, [], some ⟨"01.01.2000"⟩⟩

theorem add_birthday_invalid_keeps_birthday_witness :
    c9rec.add_birthday "31.02.2024" = (c9rec, some .invalidDate) ∧
    (c9rec.add_birthday "31.02.2024").1.birthday = c9rec.birthday :=
  add_birthday_invalid_keeps_birthday c9rec "31.02.2024" (by decide)

/-! ### add_record semantics (C7) -/

theorem find?_mapOverwrite_self (l : List (String × Record)) (k : String) (v : Record)
    (hany : l.any (fun p => p.1 == k) = true) :
    (l.map (fun p => if p.1 == k then (p.1, v) else p)).find? (fun p => p.1 == k) =
      some (k, v) := by
  induction l with
  | nil => simp at hany
  | cons hd tl ih =>
    simp only [List.map_cons]
    by_cases hh : (hd.1 == k) = true
    · rw [if_pos hh,
        List.find?_cons_of_pos (p := fun q => q.1 == k) (a := (hd.1, v)) _ hh]
      have hk : hd.1 = k := by simpa using hh
      rw [hk]
    · rw [if_neg hh, List.find?_cons_of_neg (p := fun q => q.1 == k) (a := hd) _ hh]
      apply ih
      simp only [List.any_cons, Bool.or_eq_true] at hany
      exact hany.resolve_left hh

theorem find?_mapOverwrite_other (l : List (String × Record)) (k k' : String) (v : Record)
    (hne : k' ≠ k) :
    (l.map (fun p => if p.1 == k then (p.1, v) else p)).find? (fun p => p.1 == k') =
      l.find? (fun p => p.1 == k') := by
  induction l with
  | nil => rfl
  | cons hd tl ih =>
    simp only [List.map_cons]
    by_cases hh : (hd.1 == k) = true
    · have hk : hd.1 = k := by simpa using hh
      have hnp : ¬ ((hd.1 == k') = true) := by
        simp only [beq_iff_eq, hk]
        exact fun hc => hne hc.symm
      rw [if_pos hh,
        List.find?_cons_of_neg (p := fun q => q.1 == k') (a := (hd.1, v)) _ hnp,
        List.find?_cons_of_neg (p := fun q => q.1 == k') (a := hd) _ hnp]
      exact ih
    · rw [if_neg hh]
      by_cases hk' : (hd.1 == k') = true
      · rw [List.find?_cons_of_pos (p := fun q => q.1 == k') (a := hd) _ hk',
          List.find?_cons_of_pos (p := fun q => q.1 == k') (a := hd) _ hk']
      · rw [List.find?_cons_of_neg (p := fun q => q.1 == k') (a := hd) _ hk',
          List.find?_cons_of_neg (p := fun q => q.1 == k') (a := hd) _ hk']
        exact ih

/-- C7: `add_record` is total, stores the record under the key equal to its
name value (a previous record under that name is no longer reachable), and
leaves every other key's lookup unchanged. -/
theorem add_record_stores_and_overwrites (book : AddressBook) (r : Record) :
    (book.add_record r).find r.name.value = some r ∧
    ∀ k, k ≠ r.name.value → (book.add_record r).find k = book.find k := by
  constructor
  · unfold AddressBook.add_record AddressBook.find dictInsert
    by_cases hany : book.data.any (fun p => p.1 == r.name.value) = true
    · rw [if_pos hany]
      simp only
      rw [find?_mapOverwrite_self book.data r.name.value r hany]
    · rw [if_neg hany]
      simp only
      rw [List.find?_append]
      have hnone : book.data.find? (fun p => p.1 == r.name.value) = none := by
        rw [List.find?_eq_none]
        exact fun x hx hpx => hany (List.any_eq_true.mpr ⟨x, hx, hpx⟩)
      rw [hnone]
      simp [List.find?]
  · intro k hk
    unfold AddressBook.add_record AddressBook.find dictInsert
    by_cases hany : book.data.any (fun p => p.1 == r.name.value) = true
    · rw [if_pos hany]
      simp only
      rw [find?_mapOverwrite_other book.data r.name.value k r hk]
    · rw [if_neg hany]
      simp only
      rw [List.find?_append]
      have h2 : List.find? (fun p => p.1 == k) [(r.name.value, r)] = none := by
        have hb : (r.name.value == k) = false := beq_eq_false_iff_ne.mpr (Ne.symm hk)
        simp [List.find?, hb]
      rw [h2]
      cases book.data.find? (fun p => p.1 == k) <;> rfl

def c7book : AddressBook :=
  ⟨[("Ann", ⟨⟨"Ann"⟩, [⟨"0123456789"⟩], none⟩), ("Joe", ⟨⟨"Joe"⟩, [], none⟩)]⟩

def c7rec : Record := ⟨⟨"Ann"⟩, [⟨"5556667778"⟩], some ⟨"01.01.1990"⟩⟩

theorem add_record_stores_and_overwrites_witness :
    (c7book.add_record c7rec).find "Ann" = some c7rec ∧
    (c7book.add_record c7rec).find "Joe" = c7book.find "Joe" :=
  ⟨(add_record_stores_and_overwrites c7book c7rec).1,
    (add_record_stores_and_overwrites c7book c7rec).2 "Joe" (by decide)⟩

/-! ### edit_phone semantics (C6) -/

/-- C6: `edit_phone` with an absent `old` fails with `PhoneNotFound` leaving
the record completely unchanged; with `old` present (its first position
being `i`) and a valid 10-digit `new`, the call succeeds, the list keeps its
length, cell `i` now holds `new`, and every other cell keeps its value and
position. -/
theorem edit_phone_characterization (r : Record) (old new : String) :
    ((r.find_phone old).isSome = false →
      r.edit_phone old new = (r, some .phoneNotFound)) ∧
    (∀ i, r.phones.findIdx (fun q => q.value == old) = i →
      (r.find_phone old).isSome = true →
      validate_phone new = true →
      (r.edit_phone old new).2 = none ∧
      (r.edit_phone old new).1.phones.length = r.phones.length ∧
      (r.edit_phone old new).1.phones[i]? = some ⟨new⟩ ∧
      ∀ j, j ≠ i → (r.edit_phone old new).1.phones[j]? = r.phones[j]?) := by
  constructor
  · intro h
    unfold Record.edit_phone
    rw [if_neg (by simp [h])]
  · intro i hidx hsome hval
    have hlt : i < r.phones.length := by
      rw [← hidx]
      exact List.findIdx_lt_length_of_exists (List.find?_isSome.mp hsome)
    unfold Record.edit_phone Phone.make
    rw [if_pos hsome, if_pos hval, hidx]
    refine ⟨rfl, List.length_set r.phones i ⟨new⟩, ?_, ?_⟩
    · exact List.getElem?_set_self hlt
    · exact fun j hj => List.getElem?_set_ne (Ne.symm hj)

def c6rec : Record := ⟨⟨"Cid"⟩, [⟨"1111111111"⟩, ⟨"2222222222"⟩], none⟩

def c6rec1 : Record := ⟨⟨"Cid"⟩, [⟨"1111111111"⟩], none⟩

theorem edit_phone_characterization_witness :
    (c6rec.edit_phone "2222222222" "3333333333").2 = none ∧
    (c6rec.edit_phone "2222222222" "3333333333").1.phones.length = c6rec.phones.length ∧
    (c6rec.edit_phone "2222222222" "3333333333").1.phones[1]? = some ⟨"3333333333"⟩ ∧
    (∀ j, j ≠ 1 →
      (c6rec.edit_phone "2222222222" "3333333333").1.phones[j]? = c6rec.phones[j]?) ∧
    c6rec1.edit_phone "9999999999" "3333333333" = (c6rec1, some .phoneNotFound) := by
  have h1 := (edit_phone_characterization c6rec "2222222222" "3333333333").2 1
    (by decide) (by decide) (by decide)
  have h2 := (edit_phone_characterization c6rec1 "9999999999" "3333333333").1 (by decide)
  exact ⟨h1.1, h1.2.1, h1.2.2.1, h1.2.2.2, h2⟩

/-! ### Phone-list distinctness (C2) -/

/-- The claim's invariant: no two phones on the record share a digit
string. -/
def phonesNodup (r : Record) : Prop := (r.phones.map Phone.value).Nodup

instance (r : Record) : Decidable (phonesNodup r) :=
  inferInstanceAs (Decidable (List.Nodup _))

def c2rec : Record := ⟨⟨"Bob"⟩, [⟨"0000000000"⟩, ⟨"1111111111"⟩], none⟩

/-- C2 as stated is false on the code: on a record whose phone values are
distinct, `edit_phone(old, new)` with `new` equal to another stored phone
completes successfully and leaves two phones with the same digit string. -/
theorem edit_phone_creates_duplicate :
    phonesNodup c2rec ∧
    (c2rec.edit_phone "0000000000" "1111111111").2 = none ∧
    ¬ phonesNodup (c2rec.edit_phone "0000000000" "1111111111").1 :=
  ⟨by decide, by decide, by decide⟩

theorem erasePhoneValue_sublist (l : List Phone) (p : String) :
    (erasePhoneValue l p).Sublist l := by
  induction l with
  | nil => exact List.Sublist.refl []
  | cons hd tl ih =>
    unfold erasePhoneValue
    by_cases hh : (hd.value == p) = true
    · rw [if_pos hh]
      exact List.sublist_cons_self hd tl
    · rw [if_neg hh]
      exact ih.cons₂ hd

theorem nodup_set_of (L : List String) (i : Nat) (x : String) (hL : L.Nodup)
    (hx : ∀ j, j < L.length → j ≠ i → ∀ hj : j < L.length, L[j] ≠ x) :
    (L.set i x).Nodup := by
  induction L generalizing i with
  | nil => simp
  | cons a t ih =>
    rcases List.nodup_cons.mp hL with ⟨ha, ht⟩
    cases i with
    | zero =>
      rw [List.set_cons_zero, List.nodup_cons]
      refine ⟨?_, ht⟩
      intro hmem
      rcases List.getElem_of_mem hmem with ⟨j, hj, hget⟩
      have hjl : j + 1 < (a :: t).length := by simp; omega
      refine hx (j + 1) hjl (Nat.succ_ne_zero j) hjl ?_
      simpa using hget
    | succ i =>
      rw [List.set_cons_succ, List.nodup_cons]
      constructor
      · intro hmem
        rcases List.mem_or_eq_of_mem_set hmem with hmem' | heq
        · exact ha hmem'
        · have h0 : (0 : Nat) < (a :: t).length := by simp
          exact hx 0 h0 (Nat.succ_ne_zero i).symm h0 (by simpa using heq)
      · refine ih i ht ?_
        intro j hj hne hj2
        have hjl : j + 1 < (a :: t).length := by simp; omega
        have := hx (j + 1) hjl (by omega) hjl
        simpa using this

/-- C2, amended: `add_phone`, `remove_phone` and `add_birthday` preserve
phone-value distinctness whenever they complete successfully; `edit_phone`
preserves it only under the extra proviso that the new value is the old one
or is not yet stored on the record (when `new` equals another stored phone
the operation succeeds and the invariant breaks, as shown separately). -/
theorem record_ops_preserve_nodup (r : Record) (p old new b : String)
    (h : phonesNodup r) :
    ((r.add_phone p).2 = none → phonesNodup (r.add_phone p).1) ∧
    ((r.remove_phone p).2 = none → phonesNodup (r.remove_phone p).1) ∧
    ((r.add_birthday b).2 = none → phonesNodup (r.add_birthday b).1) ∧
    ((r.edit_phone old new).2 = none →
      (new = old ∨ (r.find_phone new).isSome = false) →
      phonesNodup (r.edit_phone old new).1) := by
  refine ⟨?_, ?_, ?_, ?_⟩
  · intro hok
    unfold Record.add_phone Phone.make at hok ⊢
    by_cases hf : (r.find_phone p).isSome = true
    · rw [if_pos hf] at hok
      simp at hok
    · rw [if_neg hf] at hok ⊢
      by_cases hv : validate_phone p = true
      · rw [if_pos hv] at hok ⊢
        unfold phonesNodup
        simp only [List.map_append, List.map_cons, List.map_nil]
        rw [List.nodup_append]
        refine ⟨h, List.nodup_singleton p, ?_⟩
        intro a ha hmem
        rw [List.mem_singleton] at hmem
        subst hmem
        have hnone : r.find_phone a = none := by
          cases hfp : r.find_phone a with
          | none => rfl
          | some q => rw [hfp] at hf; simp at hf
        unfold Record.find_phone at hnone
        rw [List.find?_eq_none] at hnone
        rcases List.mem_map.mp ha with ⟨q, hq, hqv⟩
        exact hnone q hq (by simp [hqv])
      · rw [if_neg hv] at hok
        simp at hok
  · intro hok
    unfold Record.remove_phone at hok ⊢
    by_cases hf : (r.find_phone p).isSome = true
    · rw [if_pos hf]
      exact List.Nodup.sublist
        (List.Sublist.map Phone.value (erasePhoneValue_sublist r.phones p)) h
    · rw [if_neg hf] at hok
      simp at hok
  · intro hok
    unfold Record.add_birthday Birthday.make at hok ⊢
    by_cases hv : (parseDMY b).isSome = true
    · rw [if_pos hv]
      exact h
    · rw [if_neg hv] at hok
      simp at hok
  · intro hok hcond
    unfold Record.edit_phone Phone.make at hok ⊢
    by_cases hf : (r.find_phone old).isSome = true
    · rw [if_pos hf] at hok ⊢
      by_cases hv : validate_phone new = true
      · rw [if_pos hv]
        unfold phonesNodup
        simp only [List.map_set]
        have hleni : r.phones.findIdx (fun q => q.value == old) < r.phones.length :=
          List.findIdx_lt_length_of_exists (List.find?_isSome.mp hf)
        refine nodup_set_of _ _ _ h ?_
        intro j hjLen hne hj2
        have hjlen : j < r.phones.length := by simpa using hjLen
        have hLj : (r.phones.map Phone.value)[j] = (r.phones[j]).value := by
          simp
        rcases hcond with rfl | hnf
        · rcases Nat.lt_or_ge j (r.phones.findIdx (fun q => q.value == new)) with hji | hij
          · have hfalse := List.not_of_lt_findIdx hji
            simp only [beq_eq_false_iff_ne] at hfalse
            rw [hLj]
            exact hfalse
          · have hij' : r.phones.findIdx (fun q => q.value == new) < j :=
              lt_of_le_of_ne hij (fun hc => hne hc.symm)
            have hleni2 : r.phones.findIdx (fun q => q.value == new) <
                (r.phones.map Phone.value).length := by simpa using hleni
            have hLi :
                (r.phones.map Phone.value)[r.phones.findIdx (fun q => q.value == new)] =
                  new := by
              have := @List.findIdx_getElem Phone (fun q => q.value == new) r.phones hleni
              simp only [beq_iff_eq] at this
              simpa using this
            intro hLjx
            have hj' : j < (r.phones.map Phone.value).length := hj2
            have : j = r.phones.findIdx (fun q => q.value == new) :=
              (h.getElem_inj_iff).mp (by rw [hLjx, hLi])
            exact hne this
        · intro hLjx
          have hnone : r.find_phone new = none := by
            cases hfp : r.find_phone new with
            | none => rfl
            | some q => rw [hfp] at hnf; simp at hnf
          unfold Record.find_phone at hnone
          rw [List.find?_eq_none] at hnone
          exact hnone (r.phones[j]) (List.getElem_mem hjlen)
            (by rw [hLj] at hLjx; simp [hLjx])
      · rw [if_neg hv] at hok
        simp at hok
    · rw [if_neg hf] at hok
      simp at hok

def c2wrec : Record := ⟨⟨"Iva"⟩, [⟨"1234500000"⟩, ⟨"2345100000"⟩], none⟩

theorem record_ops_preserve_nodup_witness :
    ((c2wrec.add_phone "3456100000").2 = none →
      phonesNodup (c2wrec.add_phone "3456100000").1) ∧
    ((c2wrec.remove_phone "3456100000").2 = none →
      phonesNodup (c2wrec.remove_phone "3456100000").1) ∧
    ((c2wrec.add_birthday "05.05.1995").2 = none →
      phonesNodup (c2wrec.add_birthday "05.05.1995").1) ∧
    ((c2wrec.edit_phone "1234500000" "2345100000").2 = none →
      ("2345100000" = "1234500000" ∨ (c2wrec.find_phone "2345100000").isSome = false) →
      phonesNodup (c2wrec.edit_phone "1234500000" "2345100000").1) :=
  record_ops_preserve_nodup c2wrec "3456100000" "1234500000" "2345100000" "05.05.1995"
    (by decide)

/-! ### Key/name invariant (C8) -/

/-- The operations of the C8 state machine: the `AddressBook` operations and
the `Record` mutators applied to a stored record. In Python a record found
in the book is mutated through the stored reference, so afterwards the
mapping holds the mutated record under the same key. -/
inductive BookOp where
  | addRecord (r : Record)
  | deleteRecord (name : String)
  | addPhone (name phone : String)
  | removePhone (name phone : String)
  | editPhone (name old new : String)
  | addBirthday (name bday : String)
deriving DecidableEq, Repr

/-- Mutate, in place, the record stored under `name` (no-op when absent:
there is then no stored record to mutate). -/
def mutateAt (book : AddressBook) (name : String) (f : Record → Record × Option VError) :
    AddressBook :=
  match book.find name with
  | none => book
  | some r => ⟨book.data.map (fun p => if p.1 == name then (p.1, (f r).1) else p)⟩

def applyOp (book : AddressBook) : BookOp → AddressBook
  | .addRecord r => book.add_record r
  | .deleteRecord n => (book.delete n).1
  | .addPhone n p => mutateAt book n (fun r => r.add_phone p)
  | .removePhone n p => mutateAt book n (fun r => r.remove_phone p)
  | .editPhone n o nw => mutateAt book n (fun r => r.edit_phone o nw)
  | .addBirthday n b => mutateAt book n (fun r => r.add_birthday b)

/-- C8's invariant: each key of the mapping equals the name value of the
record stored under it. -/
def keyInv (book : AddressBook) : Prop :=
  ∀ p ∈ book.data, p.1 = p.2.name.value

theorem add_phone_keeps_name (r : Record) (p : String) : (r.add_phone p).1.name = r.name := by
  unfold Record.add_phone
  split
  · rfl
  · split <;> rfl

theorem remove_phone_keeps_name (r : Record) (p : String) :
    (r.remove_phone p).1.name = r.name := by
  unfold Record.remove_phone
  split <;> rfl

theorem edit_phone_keeps_name (r : Record) (o n : String) :
    (r.edit_phone o n).1.name = r.name := by
  unfold Record.edit_phone
  split
  · split <;> rfl
  · rfl

theorem add_birthday_keeps_name (r : Record) (b : String) :
    (r.add_birthday b).1.name = r.name := by
  unfold Record.add_birthday
  split <;> rfl

theorem keyInv_addRecord (book : AddressBook) (r : Record) (h : keyInv book) :
    keyInv (book.add_record r) := by
  unfold AddressBook.add_record dictInsert
  split
  · intro p hp
    rcases List.mem_map.mp hp with ⟨q, hq, rfl⟩
    by_cases hk : (q.1 == r.name.value) = true
    · rw [if_pos hk]
      simpa using hk
    · rw [if_neg hk]
      exact h q hq
  · intro p hp
    rcases List.mem_append.mp hp with hq | hq
    · exact h p hq
    · rw [List.mem_singleton] at hq
      subst hq
      rfl

theorem keyInv_delete (book : AddressBook) (n : String) (h : keyInv book) :
    keyInv (book.delete n).1 := by
  unfold AddressBook.delete
  split
  · intro p hp
    exact h p ((List.eraseP_sublist book.data).mem hp)
  · exact h

/-- The record `find` returns has the looked-up name as its name value,
under the invariant. -/
theorem find_name_value (book : AddressBook) (name : String) (r : Record)
    (h : keyInv book) (hf : book.find name = some r) : r.name.value = name := by
  unfold AddressBook.find at hf
  cases hfind : book.data.find? (fun p => p.1 == name) with
  | none => rw [hfind] at hf; exact absurd hf (by simp)
  | some q =>
    rw [hfind] at hf
    have hq : q ∈ book.data := List.mem_of_find?_eq_some hfind
    have hpred : (q.1 == name) = true :=
      List.find?_some (p := fun t : String × Record => t.1 == name) hfind
    have h1 : q.1 = name := by simpa using hpred
    have h2 : q.1 = q.2.name.value := h q hq
    have h3 : q.2 = r := by simpa using hf
    rw [← h3, ← h2, h1]

theorem keyInv_mutateAt (book : AddressBook) (name : String)
    (f : Record → Record × Option VError) (hf : ∀ r, (f r).1.name = r.name)
    (h : keyInv book) : keyInv (mutateAt book name f) := by
  unfold mutateAt
  cases hfind : book.find name with
  | none => exact h
  | some r =>
    intro p hp
    rcases List.mem_map.mp hp with ⟨q, hq, rfl⟩
    by_cases hk : (q.1 == name) = true
    · rw [if_pos hk]
      show q.1 = (f r).1.name.value
      rw [hf r, find_name_value book name r h hfind]
      simpa using hk
    · rw [if_neg hk]
      exact h q hq

/-- C8: starting from any book satisfying the key/name invariant, any
sequence of `add_record`, `delete`, and in-place record mutations
(`add_phone`, `remove_phone`, `edit_phone`, `add_birthday`) preserves it:
every key still equals the stored record's name value. -/
theorem keyInv_reachable (book : AddressBook) (h : keyInv book) (ops : List BookOp) :
    keyInv (ops.foldl applyOp book) := by
  induction ops generalizing book with
  | nil => exact h
  | cons op rest ih =>
    refine ih (applyOp book op) ?_
    cases op with
    | addRecord r => exact keyInv_addRecord book r h
    | deleteRecord n => exact keyInv_delete book n h
    | addPhone n p => exact keyInv_mutateAt book n _ (fun r => add_phone_keeps_name r p) h
    | removePhone n p =>
      exact keyInv_mutateAt book n _ (fun r => remove_phone_keeps_name r p) h
    | editPhone n o nw =>
      exact keyInv_mutateAt book n _ (fun r => edit_phone_keeps_name r o nw) h
    | addBirthday n b =>
      exact keyInv_mutateAt book n _ (fun r => add_birthday_keeps_name r b) h

theorem keyInv_reachable_witness :
    keyInv (([.addRecord ⟨⟨"Eve"⟩, [], none⟩, .addPhone "Eve" "0123456789",
      .editPhone "Eve" "0123456789" "1234567890", .addBirthday "Eve" "01.01.2000",
      .addRecord ⟨⟨"Tom"⟩, [⟨"7778889990"⟩], none⟩, .removePhone "Tom" "7778889990",
      .deleteRecord "Eve"] : List BookOp).foldl applyOp ⟨[]⟩) :=
  keyInv_reachable ⟨[]⟩ (by intro p hp; simp at hp) _

/-! ### Frame property of the query (C10) -/

theorem upcomingAuxSt_state (today : Date) (st : List (String × Record))
    (rs : List Record) : (upcomingAuxSt today st rs).1 = st := by
  induction rs with
  | nil => rfl
  | cons r rest ih =>
    unfold upcomingAuxSt
    cases processRecord today r with
    | error e => rfl
    | ok e? =>
      rcases haux : upcomingAuxSt today st rest with ⟨st', res⟩
      rw [haux] at ih
      cases res <;> exact ih

/-- C10: a `get_upcoming_birthdays` call that returns normally leaves the
book unchanged: the mapping state threaded through the loop is, at return,
the initial mapping, so the book has the same keys and, under each key, the
very same record (same name, same phone list in order, same birthday). -/
theorem get_upcoming_birthdays_frame (book : AddressBook) (today : Date)
    (l : List Entry) (_h : (book.get_upcoming_birthdays_st today).2 = .ok l) :
    (book.get_upcoming_birthdays_st today).1 = book ∧
    (book.get_upcoming_birthdays_st today).1.data.map Prod.fst =
      book.data.map Prod.fst ∧
    ∀ p ∈ book.data, p ∈ (book.get_upcoming_birthdays_st today).1.data := by
  have hstate : (book.get_upcoming_birthdays_st today).1 = book := by
    show (⟨(upcomingAuxSt today book.data (book.data.map Prod.snd)).1⟩ : AddressBook) = book
    rw [upcomingAuxSt_state]
  exact ⟨hstate, by rw [hstate], fun p hp => by rw [hstate]; exact hp⟩

def c10book : AddressBook :=
  ⟨[("Ana", ⟨⟨"Ana"⟩, [⟨"0102030405"⟩], some ⟨"12.03.2020"⟩⟩)]⟩

theorem get_upcoming_birthdays_frame_witness :
    (c10book.get_upcoming_birthdays_st ⟨2024, 3, 10⟩).1 = c10book ∧
    (c10book.get_upcoming_birthdays_st ⟨2024, 3, 10⟩).1.data.map Prod.fst =
      c10book.data.map Prod.fst ∧
    ∀ p ∈ c10book.data, p ∈ (c10book.get_upcoming_birthdays_st ⟨2024, 3, 10⟩).1.data :=
  get_upcoming_birthdays_frame c10book ⟨2024, 3, 10⟩ [⟨"Ana", "12.03.2024"⟩] (by decide)

/-! ### The upcoming-birthday query against its specification (C1) -/

/-- Spec-side (C1, from the claim's words): the next occurrence of a
birthday relative to `today` — its month/day applied to the current year,
or to the next year when that date is before today; `none` when the
month/day does not exist in the target year. -/
def nextOccurrenceSpec (bd : Date) (today : Date) : Option Date :=
  match replaceYear bd today.year with
  | none => none
  | some c => if dateLt c today then replaceYear bd (today.year + 1) else some c

/-- Spec-side (C1): the returned date — the occurrence shifted forward 2
days when it is a Saturday, 1 day when it is a Sunday, unshifted
otherwise. -/
def congratulationSpec (c : Date) : Date :=
  if pythonWeekday c == 5 then addDays c 2
  else if pythonWeekday c == 6 then addDays c 1
  else c

/-- Spec-side (C1): the entry a record contributes — present iff its
birthday is set and the next occurrence `c` satisfies
`0 ≤ c - today ≤ 7` days; it carries the record's name and the shifted
occurrence formatted DD.MM.YYYY. -/
def entrySpec (today : Date) (r : Record) : Option Entry :=
  match r.birthday with
  | none => none
  | some b =>
    match parseDMY b.value with
    | none => none
    | some bd =>
      match nextOccurrenceSpec bd today with
      | none => none
      | some c =>
        if 0 ≤ ((rataDie c : Int) - (rataDie today : Int)) ∧
            ((rataDie c : Int) - (rataDie today : Int)) ≤ 7 then
          some ⟨r.name.value, formatDMY (congratulationSpec c)⟩
        else none

/-- Spec-side (C1): exactly one entry per qualifying record, in the book's
insertion order. -/
def upcomingSpec (book : AddressBook) (today : Date) : List Entry :=
  (book.data.map Prod.snd).filterMap (entrySpec today)

theorem entrySpec_of_processRecord (today : Date) (r : Record) (e? : Option Entry)
    (h : processRecord today r = .ok e?) : entrySpec today r = e? := by
  unfold processRecord at h
  simp only [entrySpec, nextOccurrenceSpec, congratulationSpec]
  cases hb : r.birthday with
  | none =>
    simp only [hb] at h ⊢
    exact Except.ok.inj h
  | some b =>
    simp only [hb] at h ⊢
    cases hp : parseDMY b.value with
    | none =>
      simp only [hp] at h
      exact absurd h (by simp)
    | some bd =>
      simp only [hp] at h ⊢
      cases h1 : replaceYear bd today.year with
      | none =>
        simp only [h1] at h
        exact absurd h (by simp)
      | some bty =>
        simp only [h1] at h ⊢
        cases h2 : (if dateLt bty today = true then replaceYear bd (today.year + 1)
            else some bty) with
        | none =>
          simp only [h2] at h
          exact absurd h (by simp)
        | some c =>
          simp only [h2] at h ⊢
          by_cases hw : 0 ≤ ((rataDie c : Int) - (rataDie today : Int)) ∧
              ((rataDie c : Int) - (rataDie today : Int)) ≤ 7
          · rw [if_pos hw] at h ⊢
            exact Except.ok.inj h
          · rw [if_neg hw] at h ⊢
            exact Except.ok.inj h

theorem upcomingAux_ok (today : Date) (rs : List Record) (l : List Entry)
    (h : upcomingAux today rs = .ok l) : l = rs.filterMap (entrySpec today) := by
  induction rs generalizing l with
  | nil =>
    unfold upcomingAux at h
    simpa using h.symm
  | cons r rest ih =>
    unfold upcomingAux at h
    cases hpr : processRecord today r with
    | error e => rw [hpr] at h; exact absurd h (by simp)
    | ok e? =>
      rw [hpr] at h
      cases haux : upcomingAux today rest with
      | error e => rw [haux] at h; exact absurd h (by simp)
      | ok tl =>
        rw [haux] at h
        have hspec := entrySpec_of_processRecord today r e? hpr
        have htl := ih tl haux
        rw [List.filterMap_cons, hspec]
        cases e? with
        | none => simpa [htl] using h.symm
        | some e => simpa [htl] using h.symm

/-- C1: whenever `get_upcoming_birthdays` returns normally, the returned
list is exactly the claim's list: one entry per record (in insertion order)
whose birthday is set and whose next occurrence lies in the inclusive
window `today .. today + 7` days, carrying the weekend-shifted
congratulation date formatted DD.MM.YYYY. -/
theorem get_upcoming_birthdays_matches_spec (book : AddressBook) (today : Date)
    (l : List Entry) (h : book.get_upcoming_birthdays today = .ok l) :
    l = upcomingSpec book today := by
  unfold AddressBook.get_upcoming_birthdays at h
  unfold upcomingSpec
  exact upcomingAux_ok today (book.data.map Prod.snd) l h

def c1book : AddressBook :=
  ⟨[("Alice", ⟨⟨"Alice"⟩, [], some ⟨"12.03.2020"⟩⟩),
    ("Bob", ⟨⟨"Bob"⟩, [], some ⟨"16.03.1990"⟩⟩),
    ("Carol", ⟨⟨"Carol"⟩, [], some ⟨"09.03.1995"⟩⟩)]⟩

theorem get_upcoming_birthdays_matches_spec_witness :
    ([⟨"Alice", "12.03.2024"⟩, ⟨"Bob", "18.03.2024"⟩] : List Entry) =
      upcomingSpec c1book ⟨2024, 3, 10⟩ :=
  get_upcoming_birthdays_matches_spec c1book ⟨2024, 3, 10⟩
    [⟨"Alice", "12.03.2024"⟩, ⟨"Bob", "18.03.2024"⟩] (by decide)

/-! ### February 29 failure mode (C4) -/

/-- A record's stored birthday string, when set, parses. Every record built
through `Birthday.make` satisfies this. -/
def birthdayParses (r : Record) : Bool :=
  match r.birthday with
  | none => true
  | some b => (parseDMY b.value).isSome

theorem daysInMonth_feb (y : Nat) (h : isLeap y = false) : daysInMonth y 2 = 28 := by
  simp [daysInMonth, h]

theorem replaceYear_feb29_none (bd : Date) (y : Nat) (hm : bd.month = 2)
    (hd : bd.day = 29) (hleap : isLeap y = false) : replaceYear bd y = none := by
  have hcond : ¬(1 ≤ y ∧ y ≤ 9999 ∧ bd.day ≤ daysInMonth y bd.month) := by
    rintro ⟨-, -, h3⟩
    rw [hd, hm, daysInMonth_feb y hleap] at h3
    omega
  unfold replaceYear
  rw [if_neg hcond]

theorem processRecord_feb29 (today : Date) (r : Record) (b : Birthday) (bd : Date)
    (hb : r.birthday = some b) (hp : parseDMY b.value = some bd)
    (hm : bd.month = 2) (hd : bd.day = 29)
    (ht : isLeap today.year = false ∨
      (dateLt ⟨today.year, 2, 29⟩ today = true ∧ isLeap (today.year + 1) = false)) :
    processRecord today r = .error .dateConstructionError := by
  unfold processRecord
  simp only [hb, hp]
  rcases ht with hleap | ⟨hlt, hnl⟩
  · rw [replaceYear_feb29_none bd today.year hm hd hleap]
  · cases hry : replaceYear bd today.year with
    | none => simp only [hry]
    | some c =>
      simp only [hry]
      have hc : c = ⟨today.year, 2, 29⟩ := by
        unfold replaceYear at hry
        split at hry
        · have h4 := Option.some.inj hry
          rw [← h4, hm, hd]
        · exact absurd hry (by simp)
      rw [hc, if_pos hlt, replaceYear_feb29_none bd (today.year + 1) hm hd hnl]

theorem processRecord_ok_or_dce (today : Date) (r : Record)
    (hp : birthdayParses r = true) :
    (∃ e?, processRecord today r = .ok e?) ∨
      processRecord today r = .error .dateConstructionError := by
  unfold processRecord
  unfold birthdayParses at hp
  cases hb : r.birthday with
  | none =>
    simp only [hb]
    exact .inl ⟨none, rfl⟩
  | some b =>
    simp only [hb] at hp ⊢
    cases hpp : parseDMY b.value with
    | none => rw [hpp] at hp; simp at hp
    | some bd =>
      simp only [hpp]
      cases h1 : replaceYear bd today.year with
      | none =>
        simp only [h1]
        exact .inr trivial
      | some bty =>
        simp only [h1]
        cases h2 : (if dateLt bty today = true then replaceYear bd (today.year + 1)
            else some bty) with
        | none =>
          simp only [h2]
          exact .inr trivial
        | some c =>
          simp only [h2]
          by_cases hw : 0 ≤ ((rataDie c : Int) - (rataDie today : Int)) ∧
              ((rataDie c : Int) - (rataDie today : Int)) ≤ 7
          · rw [if_pos hw]
            exact .inl ⟨_, rfl⟩
          · rw [if_neg hw]
            exact .inl ⟨none, rfl⟩

theorem upcomingAux_error_of_mem (today : Date) (rs : List Record) (r : Record)
    (hr : processRecord today r = .error .dateConstructionError) :
    (∀ x ∈ rs, birthdayParses x = true) → r ∈ rs →
    upcomingAux today rs = .error .dateConstructionError := by
  induction rs with
  | nil => intro _ hmem; cases hmem
  | cons r0 rest ih =>
    intro hall hmem
    unfold upcomingAux
    rcases List.mem_cons.mp hmem with heq | hmem'
    · subst heq
      simp only [hr]
    · rcases processRecord_ok_or_dce today r0 (hall r0 (List.mem_cons_self r0 rest)) with
        ⟨e?, he⟩ | he
      · simp only [he]
        simp only [ih (fun x hx => hall x (List.mem_cons_of_mem r0 hx)) hmem']
      · simp only [he]

/-- C4: when the book holds a record whose (well-formed) birthday is
February 29 and the target year for its next occurrence is not a leap year
— the current year is not leap, or the current-year Feb 29 is already past
and the next year is not leap — `get_upcoming_birthdays` raises a
date-construction error instead of returning a result. -/
theorem get_upcoming_birthdays_feb29_raises (book : AddressBook) (today : Date)
    (r : Record) (b : Birthday) (bd : Date)
    (hall : ∀ p ∈ book.data, birthdayParses p.2 = true)
    (hmem : r ∈ book.data.map Prod.snd)
    (hb : r.birthday = some b) (hp : parseDMY b.value = some bd)
    (hm : bd.month = 2) (hd : bd.day = 29)
    (ht : isLeap today.year = false ∨
      (dateLt ⟨today.year, 2, 29⟩ today = true ∧ isLeap (today.year + 1) = false)) :
    book.get_upcoming_birthdays today = .error .dateConstructionError := by
  unfold AddressBook.get_upcoming_birthdays
  refine upcomingAux_error_of_mem today (book.data.map Prod.snd) r
    (processRecord_feb29 today r b bd hb hp hm hd ht) ?_ hmem
  intro x hx
  rcases List.mem_map.mp hx with ⟨p, hp2, rfl⟩
  exact hall p hp2

def c4book : AddressBook :=
  ⟨[("Dan", ⟨⟨"Dan"⟩, [], some ⟨"29.02.2020"⟩⟩)]⟩

theorem get_upcoming_birthdays_feb29_raises_witness :
    c4book.get_upcoming_birthdays ⟨2023, 1, 1⟩ = .error .dateConstructionError :=
  get_upcoming_birthdays_feb29_raises c4book ⟨2023, 1, 1⟩
    ⟨⟨"Dan"⟩, [], some ⟨"29.02.2020"⟩⟩ ⟨"29.02.2020"⟩ ⟨2020, 2, 29⟩
    (by decide) (by decide) (by decide) (by decide) (by decide) (by decide)
    (Or.inl (by decide))

end Assistant
